import Mathlib

/-!
Verification of the triangle rasteriser in `src/raster.rs`.

The Rust code computes with `f32` values.  We embed `f32` as an exact value
model `F32`: a rational number, or one of the IEEE special values `nan`,
`inf`, `ninf`.  Arithmetic on the rational part is exact (no rounding and
no overflow to infinity); the special values follow IEEE-754 propagation
rules, and the Rust numeric casts (`as i32`, `as usize`, `as u8`) are
modelled with their saturating, NaN-to-zero semantics.  All inputs probed
by the counterexample and witness theorems are small integers and halves,
on which real `f32` arithmetic is exact, so the idealisation is faithful
there.  Machine integer arithmetic (`i32` index arithmetic in `rasterise`)
is modelled with explicit two's-complement wrapping.

The output buffer is modelled as a length together with a byte function
`Nat → Nat`; an index-out-of-bounds access (a Rust panic) is modelled by
the whole call returning `none`.
-/

/-- Model of an `f32` value: an exact rational, or an IEEE special value. -/
inductive F32 where
  | nan  : F32
  | inf  : F32
  | ninf : F32
  | num  : ℚ → F32
deriving DecidableEq

namespace F32

/-- IEEE addition (exact on the rational part). -/
def fadd : F32 → F32 → F32
  | nan, _ => nan
  | _, nan => nan
  | inf, ninf => nan
  | ninf, inf => nan
  | inf, _ => inf
  | _, inf => inf
  | ninf, _ => ninf
  | _, ninf => ninf
  | num a, num b => num (a + b)

/-- IEEE subtraction (exact on the rational part). -/
def fsub : F32 → F32 → F32
  | nan, _ => nan
  | _, nan => nan
  | inf, inf => nan
  | ninf, ninf => nan
  | inf, _ => inf
  | _, inf => ninf
  | ninf, _ => ninf
  | _, ninf => inf
  | num a, num b => num (a - b)

/-- IEEE multiplication (exact on the rational part). -/
def fmul : F32 → F32 → F32
  | nan, _ => nan
  | _, nan => nan
  | inf, inf => inf
  | inf, ninf => ninf
  | ninf, inf => ninf
  | ninf, ninf => inf
  | inf, num a => if a = 0 then nan else if 0 < a then inf else ninf
  | num a, inf => if a = 0 then nan else if 0 < a then inf else ninf
  | ninf, num a => if a = 0 then nan else if 0 < a then ninf else inf
  | num a, ninf => if a = 0 then nan else if 0 < a then ninf else inf
  | num a, num b => num (a * b)

/-- IEEE division (exact on the rational part; `0/0 = nan`, `x/0 = ±inf`). -/
def fdiv : F32 → F32 → F32
  | nan, _ => nan
  | _, nan => nan
  | inf, inf => nan
  | inf, ninf => nan
  | ninf, inf => nan
  | ninf, ninf => nan
  | inf, num a => if 0 ≤ a then inf else ninf
  | ninf, num a => if 0 ≤ a then ninf else inf
  | num _, inf => num 0
  | num _, ninf => num 0
  | num a, num b =>
    if b = 0 then (if a = 0 then nan else if 0 < a then inf else ninf)
    else num (a / b)

/-- IEEE strict less-than: any comparison with `nan` is false. -/
def flt : F32 → F32 → Bool
  | nan, _ => false
  | _, nan => false
  | ninf, ninf => false
  | ninf, _ => true
  | _, ninf => false
  | inf, _ => false
  | num _, inf => true
  | num a, num b => decide (a < b)

/-- Rust `f32::min`: if one argument is NaN, the other is returned. -/
def fmin (a b : F32) : F32 :=
  match a, b with
  | nan, x => x
  | x, nan => x
  | x, y => if flt x y then x else if flt y x then y else x

/-- Rust `f32::max`: if one argument is NaN, the other is returned. -/
def fmax (a b : F32) : F32 :=
  match a, b with
  | nan, x => x
  | x, nan => x
  | x, y => if flt y x then x else if flt x y then y else x

/-- Rust `f32::floor` (`nan`/`±inf` map to themselves). -/
def ffloor : F32 → F32
  | num q => num (⌊q⌋ : ℤ)
  | x => x

/-- Rust `f32::ceil` (`nan`/`±inf` map to themselves). -/
def fceil : F32 → F32
  | num q => num (⌈q⌉ : ℤ)
  | x => x

/-- Truncation toward zero of a rational, as used by Rust float-to-int casts. -/
def qtrunc (q : ℚ) : ℤ := if 0 ≤ q then ⌊q⌋ else ⌈q⌉

/-- Rust `as i32` cast: truncate toward zero, saturate, NaN to 0. -/
def toI32 : F32 → ℤ
  | nan => 0
  | inf => 2 ^ 31 - 1
  | ninf => -(2 ^ 31)
  | num q => max (-(2 ^ 31)) (min (2 ^ 31 - 1) (qtrunc q))

/-- Rust `as usize` cast (64-bit): truncate toward zero, saturate, NaN to 0. -/
def toUsize : F32 → ℕ
  | nan => 0
  | inf => 2 ^ 64 - 1
  | ninf => 0
  | num q => (max 0 (min (2 ^ 64 - 1) (qtrunc q))).toNat

/-- Rust `as u8` cast: truncate toward zero, saturate to `[0, 255]`, NaN to 0. -/
def toU8 : F32 → ℕ
  | nan => 0
  | inf => 255
  | ninf => 0
  | num q => (max 0 (min 255 (qtrunc q))).toNat

/-- Rust `i32 as f32` (exact in our idealised model). -/
def ofInt (z : ℤ) : F32 := num (z : ℚ)

/-- Rust `u8 as f32` (exact). -/
def ofNat (n : ℕ) : F32 := num (n : ℚ)

end F32

open F32

/-- `Coord` from `raster.rs`: a 2D point with `f32` components. -/
structure Coord where
  x : F32
  y : F32
deriving DecidableEq

/-- `Colour` from `raster.rs`: an 8-bit-per-channel RGB triple.  The channel
values are modelled as `Nat`; the `u8` truncations of the Rust code appear
as explicit `% 256` / saturating casts at every point that constructs one. -/
structure Colour where
  r : ℕ
  g : ℕ
  b : ℕ
deriving DecidableEq

namespace Colour

/-- `Colour::black`. -/
def black : Colour := ⟨0, 0, 0⟩

/-- `Colour::white`. -/
def white : Colour := ⟨0xFF, 0xFF, 0xFF⟩

/-- `Colour::blend`: per-channel `((a as u16 + b as u16) / 2) as u8`.
The final `as u8` is the `% 256` (an identity whenever the inputs are
genuine `u8` values, since the halved sum is at most 255). -/
def blend (a b : Colour) : Colour :=
  ⟨((a.r + b.r) / 2) % 256, ((a.g + b.g) / 2) % 256, ((a.b + b.b) / 2) % 256⟩

end Colour

/-- `Polygon` from `raster.rs`.  The three-element Rust arrays are modelled
as triples. -/
structure Polygon where
  vertices : Coord × Coord × Coord
  colours : Option (Colour × Colour × Colour)
  tex_coords : Option (Coord × Coord × Coord)

/-- `BoundingBox` from `raster.rs`. -/
structure BoundingBox where
  min : Coord
  max : Coord

/-- `Texture` from `raster.rs`: dimensions and a flat row-major colour grid. -/
structure Texture where
  x : ℕ
  y : ℕ
  colours : List Colour

/-- `edge_function` from `raster.rs`:
`(c.x - a.x) * (b.y - a.y) - (c.y - a.y) * (b.x - a.x)`. -/
def edge_function (a b c : Coord) : F32 :=
  fsub (fmul (fsub c.x a.x) (fsub b.y a.y)) (fmul (fsub c.y a.y) (fsub b.x a.x))

/-- `interpolate` from `raster.rs`:
`vals[0]*parts[0] + vals[1]*parts[1] + vals[2]*parts[2]` (left-associated). -/
def interpolate (vals parts : F32 × F32 × F32) : F32 :=
  fadd (fadd (fmul vals.1 parts.1) (fmul vals.2.1 parts.2.1)) (fmul vals.2.2 parts.2.2)

/-- Vertex accessor: `self.vertices[i % 3]`. -/
def vtx (p : Polygon) (i : ℕ) : Coord :=
  if i % 3 = 0 then p.vertices.1 else if i % 3 = 1 then p.vertices.2.1 else p.vertices.2.2

/-- `Polygon::bounding_box`: start at vertex 0, fold componentwise
`f32::min`/`f32::max` over vertices 1 and 2. -/
def Polygon.bounding_box (p : Polygon) : BoundingBox :=
  let v0 := p.vertices.1
  let v1 := p.vertices.2.1
  let v2 := p.vertices.2.2
  { min := ⟨fmin (fmin v0.x v1.x) v2.x, fmin (fmin v0.y v1.y) v2.y⟩,
    max := ⟨fmax (fmax v0.x v1.x) v2.x, fmax (fmax v0.y v1.y) v2.y⟩ }

/-- Write component `k` of the weight triple (`w[k] = v` in the Rust loop). -/
def setw (w : F32 × F32 × F32) (k : ℕ) (v : F32) : F32 × F32 × F32 :=
  if k % 3 = 0 then (v, w.2.1, w.2.2)
  else if k % 3 = 1 then (w.1, v, w.2.2)
  else (w.1, w.2.1, v)

/-- The `for i in 0..3` loop of `Polygon::test_inside`, with early return
`none` when an edge function is negative. -/
def inside_go (p : Polygon) (c : Coord) (area : F32) :
    List ℕ → (F32 × F32 × F32) → Option (F32 × F32 × F32)
  | [], w => some w
  | i :: rest, w =>
    let j := (i + 1) % 3
    let wx := edge_function (vtx p i) (vtx p j) c
    if flt wx (num 0) then none
    else inside_go p c area rest (setw w ((i + 2) % 3) (fdiv wx area))

/-- `Polygon::test_inside` from `raster.rs`. -/
def Polygon.test_inside (p : Polygon) (c : Coord) : Option (F32 × F32 × F32) :=
  let area := edge_function p.vertices.1 p.vertices.2.1 p.vertices.2.2
  inside_go p c area [0, 1, 2] (num 0, num 0, num 0)

/-- The texture-sampling computation inlined at lines 123–126 of
`rasterise`: `tex_x = (x as usize) % texture.x`, `tex_y = (y as usize) %
texture.y`, index `tex_y * texture.x + tex_x`.  A zero dimension (Rust `%
0` panic) or an out-of-range index (Rust `Vec` panic) yields `none`. -/
def sample (t : Texture) (c : Coord) : Option Colour :=
  if t.x = 0 then none
  else if t.y = 0 then none
  else
    let tex_x := (toUsize c.x) % t.x
    let tex_y := (toUsize c.y) % t.y
    t.colours.get? (tex_y * t.x + tex_x)

/-- `Texture::checkerboard` from `raster.rs`. -/
def Texture.checkerboard : Texture :=
  { x := 32, y := 32,
    colours := (List.range 1024).map (fun pos =>
      let x_quad := (pos % 32) / 4
      let y_quad := (pos / 32) / 4
      if (x_quad + y_quad) % 2 = 0 then Colour.black else Colour.white) }

/-- The output buffer: a byte length together with the byte contents. -/
structure Buffer where
  len : ℕ
  data : ℕ → ℕ

/-- Write one byte (`out[i] = v`), assuming the index is in bounds. -/
def setByte (b : Buffer) (i v : ℕ) : Buffer :=
  ⟨b.len, fun j => if j = i then v else b.data j⟩

/-- Two's-complement wrap into the `i32` range, modelling release-mode
overflow of the Rust `i32` expression `(y * 256 + x) * 4`. -/
def wrap32 (z : ℤ) : ℤ := (z + 2 ^ 31) % 2 ^ 32 - 2 ^ 31

/-- Rust `i32 as usize` (64-bit): sign extension reinterpreted. -/
def i32ToUsize (z : ℤ) : ℕ := if 0 ≤ z then z.toNat else (z + 2 ^ 64).toNat

/-- The flat byte index of the pixel write:
`((y * 256 + x) * 4) as usize` from line 134 of `raster.rs`. -/
def writeIdx (x y : ℤ) : ℕ := i32ToUsize (wrap32 ((y * 256 + x) * 4))

/-- Lines 134–137 of `rasterise`: the three indexed byte stores.  Rust
panics on the first index that is out of bounds; the stores all succeed
exactly when `idx + 2 < out.len`, and a panic is modelled as `none`. -/
def writeRGB (b : Buffer) (x y : ℤ) (c : Colour) : Option Buffer :=
  let idx := writeIdx x y
  if idx + 2 < b.len then
    some (setByte (setByte (setByte b idx c.r) (idx + 1) c.g) (idx + 2) c.b)
  else none

/-- Lines 113–119 of `rasterise`: per-channel colour interpolation with the
saturating `as u8` cast. -/
def shadeColours (cs : Colour × Colour × Colour) (interp : F32 × F32 × F32) : Colour :=
  ⟨toU8 (interpolate (ofNat cs.1.r, ofNat cs.2.1.r, ofNat cs.2.2.r) interp),
   toU8 (interpolate (ofNat cs.1.g, ofNat cs.2.1.g, ofNat cs.2.2.g) interp),
   toU8 (interpolate (ofNat cs.1.b, ofNat cs.2.1.b, ofNat cs.2.2.b) interp)⟩

/-- Lines 120–127 of `rasterise`: interpolate the texture coordinates and
sample.  Outer `none` models a panic inside the sampling closure; `some
none` is a polygon without texture coordinates. -/
def texPart (p : Polygon) (t : Texture) (interp : F32 × F32 × F32) :
    Option (Option Colour) :=
  match p.tex_coords with
  | none => some none
  | some tcs =>
    let fx := interpolate (tcs.1.x, tcs.2.1.x, tcs.2.2.x) interp
    let fy := interpolate (tcs.1.y, tcs.2.1.y, tcs.2.2.y) interp
    match sample t ⟨fx, fy⟩ with
    | none => none
    | some c => some (some c)

/-- Lines 128–133 of `rasterise`: the four-way colour combination rule. -/
def blendRule : Option Colour → Option Colour → Colour
  | none, none => Colour.black
  | some c, none => c
  | none, some c => c
  | some a, some b => Colour.blend a b

/-- The loop body of `rasterise` for one candidate pixel `(x, y)`. -/
def rasterPixel (b : Buffer) (p : Polygon) (t : Texture) (x y : ℤ) : Option Buffer :=
  match p.test_inside ⟨ofInt x, ofInt y⟩ with
  | none => some b
  | some interp =>
    let shaded := p.colours.map (fun cs => shadeColours cs interp)
    match texPart p t interp with
    | none => none
    | some texc => writeRGB b x y (blendRule shaded texc)

/-- The inclusive integer range `lo..=hi` as a list. -/
def intRange (lo hi : ℤ) : List ℤ :=
  (List.range (hi + 1 - lo).toNat).map (fun n : ℕ => lo + (n : ℤ))

/-- The per-polygon scan of `rasterise`: iterate `y` then `x` over the
bounding box, `floor(min)` to `ceil(max)` inclusive, cast to `i32`. -/
def rasterPoly (b : Buffer) (p : Polygon) (t : Texture) : Option Buffer :=
  let bb := p.bounding_box
  let y0 := toI32 (ffloor bb.min.y)
  let y1 := toI32 (fceil bb.max.y)
  let x0 := toI32 (ffloor bb.min.x)
  let x1 := toI32 (fceil bb.max.x)
  (intRange y0 y1).foldlM (fun b1 yc =>
    (intRange x0 x1).foldlM (fun b2 xc => rasterPixel b2 p t xc yc) b1) b

/-- `rasterise` from `raster.rs`: process the polygons in list order.
`none` models a panic (an out-of-bounds buffer or texture access). -/
def rasterise (out : Buffer) (polygons : List Polygon) (t : Texture) : Option Buffer :=
  polygons.foldlM (fun b p => rasterPoly b p t) out

/-! ## Helper lemmas -/

set_option maxRecDepth 1000000

/-- `flt` on two finite values is the rational comparison. -/
theorem flt_num (a b : ℚ) : flt (num a) (num b) = decide (a < b) := rfl

/-- `edge_function` on finite coordinates is the exact 2D cross product. -/
theorem edge_num (ax ay bx b2 cx cy : ℚ) :
    edge_function ⟨num ax, num ay⟩ ⟨num bx, num b2⟩ ⟨num cx, num cy⟩ =
      num ((cx - ax) * (b2 - ay) - (cy - ay) * (bx - ax)) := rfl

/-- Closed form of the `test_inside` loop: the early-exit scan of the three
edge functions, storing each normalised weight at the opposite index. -/
theorem test_inside_closed (p : Polygon) (c : Coord) :
    p.test_inside c =
      (if flt (edge_function p.vertices.1 p.vertices.2.1 c) (num 0) then none
       else if flt (edge_function p.vertices.2.1 p.vertices.2.2 c) (num 0) then none
       else if flt (edge_function p.vertices.2.2 p.vertices.1 c) (num 0) then none
       else some
         (fdiv (edge_function p.vertices.2.1 p.vertices.2.2 c)
            (edge_function p.vertices.1 p.vertices.2.1 p.vertices.2.2),
          fdiv (edge_function p.vertices.2.2 p.vertices.1 c)
            (edge_function p.vertices.1 p.vertices.2.1 p.vertices.2.2),
          fdiv (edge_function p.vertices.1 p.vertices.2.1 c)
            (edge_function p.vertices.1 p.vertices.2.1 p.vertices.2.2))) := by
  show inside_go p c _ [0, 1, 2] (num 0, num 0, num 0) = _
  simp only [inside_go, vtx, setw]
  norm_num

/-! ## C6: the edge function is the 2D cross product of a→b and a→c -/

/-- C6: for all finite points `a`, `b`, `c`, `edge_function a b c` equals
`(c.x-a.x)*(b.y-a.y) - (c.y-a.y)*(b.x-a.x)`, the 2D cross product of the
vectors `a→b` and `a→c` (computed exactly in the value model). -/
theorem edge_function_is_cross_product (ax ay bx b2 cx cy : ℚ) :
    edge_function ⟨num ax, num ay⟩ ⟨num bx, num b2⟩ ⟨num cx, num cy⟩ =
      num ((cx - ax) * (b2 - ay) - (cy - ay) * (bx - ax)) :=
  edge_num ax ay bx b2 cx cy

/-! ## C8: blend symmetry, idempotence, channel average -/

/-- C8: `Colour::blend` is symmetric; on equal `u8`-valued inputs it is the
identity; and each output channel is the average of the input channels
rounded toward zero (truncating `Nat` division). -/
theorem blend_spec :
    (∀ a b : Colour, Colour.blend a b = Colour.blend b a) ∧
    (∀ c : Colour, c.r < 256 → c.g < 256 → c.b < 256 → Colour.blend c c = c) ∧
    (∀ a b : Colour, a.r < 256 → b.r < 256 → (Colour.blend a b).r = (a.r + b.r) / 2) ∧
    (∀ a b : Colour, a.g < 256 → b.g < 256 → (Colour.blend a b).g = (a.g + b.g) / 2) ∧
    (∀ a b : Colour, a.b < 256 → b.b < 256 → (Colour.blend a b).b = (a.b + b.b) / 2) := by
  refine ⟨fun a b => ?_, fun c h1 h2 h3 => ?_, fun a b h1 h2 => ?_,
    fun a b h1 h2 => ?_, fun a b h1 h2 => ?_⟩
  · simp [Colour.blend, Nat.add_comm]
  · cases c with
    | mk r g b => simp only [Colour.blend, Colour.mk.injEq] at h1 h2 h3 ⊢; omega
  · simp only [Colour.blend]; omega
  · simp only [Colour.blend]; omega
  · simp only [Colour.blend]; omega

/-- Witness for C8 at a concrete colour pair. -/
theorem blend_spec_witness :
    Colour.blend ⟨10, 20, 251⟩ ⟨11, 20, 251⟩ = ⟨10, 20, 251⟩ ∧
    Colour.blend ⟨10, 20, 251⟩ ⟨10, 20, 251⟩ = ⟨10, 20, 251⟩ := by
  refine ⟨?_, blend_spec.2.1 ⟨10, 20, 251⟩ (by decide) (by decide) (by decide)⟩
  have hr := blend_spec.2.2.1 ⟨10, 20, 251⟩ ⟨11, 20, 251⟩ (by decide) (by decide)
  have hg := blend_spec.2.2.2.1 ⟨10, 20, 251⟩ ⟨11, 20, 251⟩ (by decide) (by decide)
  have hb := blend_spec.2.2.2.2 ⟨10, 20, 251⟩ ⟨11, 20, 251⟩ (by decide) (by decide)
  cases h : Colour.blend ⟨10, 20, 251⟩ ⟨11, 20, 251⟩ with
  | mk r g b =>
    rw [h] at hr hg hb
    simp only at hr hg hb
    simp [hr, hg, hb]

/-! ## C4: the inside-test -/

/-- C4: `test_inside` computes `w_ij = edge_function(v_i, v_j, coord)` for
each edge `i → (i+1)%3`, returning `none` as soon as some `w_ij` is
negative (the early-exit scan order is `w01`, `w12`, `w20`); otherwise it
returns the triple in which each `w_ij / area` is stored at index
`(i+2)%3`, the weight of the opposite vertex.  A point with every `w_ij`
non-negative — in particular one with some `w_ij` exactly zero, a point on
an edge — is classified inside. -/
theorem test_inside_spec (p : Polygon) (c : Coord) :
    (p.test_inside c =
      (if flt (edge_function p.vertices.1 p.vertices.2.1 c) (num 0) then none
       else if flt (edge_function p.vertices.2.1 p.vertices.2.2 c) (num 0) then none
       else if flt (edge_function p.vertices.2.2 p.vertices.1 c) (num 0) then none
       else some
         (fdiv (edge_function p.vertices.2.1 p.vertices.2.2 c)
            (edge_function p.vertices.1 p.vertices.2.1 p.vertices.2.2),
          fdiv (edge_function p.vertices.2.2 p.vertices.1 c)
            (edge_function p.vertices.1 p.vertices.2.1 p.vertices.2.2),
          fdiv (edge_function p.vertices.1 p.vertices.2.1 c)
            (edge_function p.vertices.1 p.vertices.2.1 p.vertices.2.2)))) ∧
    (flt (edge_function p.vertices.1 p.vertices.2.1 c) (num 0) = false →
     flt (edge_function p.vertices.2.1 p.vertices.2.2 c) (num 0) = false →
     flt (edge_function p.vertices.2.2 p.vertices.1 c) (num 0) = false →
     (p.test_inside c).isSome = true) := by
  refine ⟨test_inside_closed p c, fun h1 h2 h3 => ?_⟩
  rw [test_inside_closed p c, h1, h2, h3]
  rfl

/-- Witness for C4: a point on an edge (`w01 = 0`) of a concrete triangle
is classified inside. -/
theorem test_inside_spec_witness :
    (Polygon.test_inside
      ⟨(⟨num 0, num 0⟩, ⟨num 0, num 2⟩, ⟨num 2, num 2⟩), none, none⟩
      ⟨num 0, num 1⟩).isSome = true := by
  refine (test_inside_spec
    ⟨(⟨num 0, num 0⟩, ⟨num 0, num 2⟩, ⟨num 2, num 2⟩), none, none⟩
    ⟨num 0, num 1⟩).2 ?_ ?_ ?_ <;> with_unfolding_all decide

/-! ## C5: the written colour of an inside pixel -/

/-- C5: for a pixel the inside-test classifies as inside, the written
colour follows the four-way rule on the polygon's optional colours and
optional texture coordinates: neither present gives black; exactly one
present is used directly; both present are combined with `Colour::blend`. -/
theorem inside_pixel_colour_rule (b : Buffer) (p : Polygon) (t : Texture) (x y : ℤ)
    (interp : F32 × F32 × F32)
    (h : p.test_inside ⟨ofInt x, ofInt y⟩ = some interp) :
    (rasterPixel b p t x y =
      (match texPart p t interp with
       | none => none
       | some texc =>
         writeRGB b x y (blendRule (p.colours.map (fun cs => shadeColours cs interp)) texc))) ∧
    blendRule none none = Colour.black ∧
    (∀ c : Colour, blendRule (some c) none = c) ∧
    (∀ c : Colour, blendRule none (some c) = c) ∧
    (∀ c1 c2 : Colour, blendRule (some c1) (some c2) = Colour.blend c1 c2) := by
  refine ⟨?_, rfl, fun c => rfl, fun c => rfl, fun c1 c2 => rfl⟩
  simp only [rasterPixel, h]

/-- Witness for C5: a concrete inside pixel of an untextured,
uniformly-coloured triangle is written with its interpolated colour. -/
theorem inside_pixel_colour_rule_witness :
    rasterPixel ⟨262144, fun _ => 7⟩
      ⟨(⟨num 0, num 0⟩, ⟨num 0, num 2⟩, ⟨num 2, num 2⟩),
       some (⟨10, 20, 30⟩, ⟨10, 20, 30⟩, ⟨10, 20, 30⟩), none⟩
      Texture.checkerboard 0 0 =
      writeRGB ⟨262144, fun _ => 7⟩ 0 0
        (blendRule (some (shadeColours (⟨10, 20, 30⟩, ⟨10, 20, 30⟩, ⟨10, 20, 30⟩)
          (num 1, num 0, num 0))) none) := by
  have h := inside_pixel_colour_rule ⟨262144, fun _ => 7⟩
    ⟨(⟨num 0, num 0⟩, ⟨num 0, num 2⟩, ⟨num 2, num 2⟩),
     some (⟨10, 20, 30⟩, ⟨10, 20, 30⟩, ⟨10, 20, 30⟩), none⟩
    Texture.checkerboard 0 0 (num 1, num 0, num 0) (by with_unfolding_all decide)
  rw [h.1]
  rfl

/-! ## Fold machinery for the rasteriser loops -/

/-- A reflexive transitive relation preserved by every successful step of a
fold over `Option` is preserved by the whole fold. -/
theorem foldlM_rel {α : Type} (R : Buffer → Buffer → Prop)
    (hrefl : ∀ b, R b b)
    (htrans : ∀ b1 b2 b3, R b1 b2 → R b2 b3 → R b1 b3)
    (f : Buffer → α → Option Buffer) :
    ∀ l : List α, (∀ a ∈ l, ∀ b b2, f b a = some b2 → R b b2) →
      ∀ b b2, l.foldlM f b = some b2 → R b b2 := by
  intro l
  induction l with
  | nil =>
    intro _ b b2 h
    rw [List.foldlM_nil] at h
    cases h
    exact hrefl b
  | cons a l ih =>
    intro hf b b2 h
    rw [List.foldlM_cons] at h
    obtain ⟨b3, hfa, hrest⟩ := Option.bind_eq_some.mp h
    exact htrans _ _ _ (hf a (List.mem_cons_self a l) b b3 hfa)
      (ih (fun x hx => hf x (List.mem_cons_of_mem a hx)) b3 b2 hrest)

/-- A fold whose every step returns its input unchanged succeeds and
returns the initial buffer. -/
theorem foldlM_id {α : Type} (f : Buffer → α → Option Buffer) :
    ∀ l : List α, (∀ a ∈ l, ∀ b, f b a = some b) →
      ∀ b, l.foldlM f b = some b := by
  intro l
  induction l with
  | nil => intro _ b; rfl
  | cons a l ih =>
    intro hf b
    rw [List.foldlM_cons, hf a (List.mem_cons_self a l) b]
    exact ih (fun x hx => hf x (List.mem_cons_of_mem a hx)) b

/-- Membership in the inclusive scan range gives the bounds. -/
theorem mem_intRange {lo hi z : ℤ} (h : z ∈ intRange lo hi) : lo ≤ z ∧ z ≤ hi := by
  obtain ⟨n, hn, hz⟩ := List.mem_map.mp h
  rw [List.mem_range] at hn
  subst hz
  omega

/-- The flat byte index of every pixel write is divisible by 4, through the
`i32` wrap and the `usize` reinterpretation. -/
theorem writeIdx_mod4 (x y : ℤ) : writeIdx x y % 4 = 0 := by
  simp only [writeIdx, i32ToUsize, wrap32]
  split <;> omega

/-- For candidates inside the 256×256 grid the write index is the exact
flat pixel offset `(y*256 + x)*4`. -/
theorem writeIdx_inGrid (x y : ℤ) (hx0 : 0 ≤ x) (hx1 : x ≤ 255)
    (hy0 : 0 ≤ y) (hy1 : y ≤ 255) :
    writeIdx x y = (y.toNat * 256 + x.toNat) * 4 := by
  simp only [writeIdx, i32ToUsize, wrap32]
  split <;> omega

/-- A byte other than the written one is unchanged by `setByte`. -/
theorem setByte_ne (b : Buffer) (i v j : ℕ) (h : j ≠ i) :
    (setByte b i v).data j = b.data j := by
  simp [setByte, h]

/-- `setByte` keeps the length. -/
theorem setByte_len (b : Buffer) (i v : ℕ) : (setByte b i v).len = b.len := rfl

/-- A successful `writeRGB` keeps the length, stays inside the buffer, only
touches the three bytes at its write index, and that index is a multiple
of 4. -/
theorem writeRGB_effect (b : Buffer) (x y : ℤ) (c : Colour) (b2 : Buffer)
    (h : writeRGB b x y c = some b2) :
    b2.len = b.len ∧ writeIdx x y + 2 < b.len ∧
    ∀ j, j ≠ writeIdx x y → j ≠ writeIdx x y + 1 → j ≠ writeIdx x y + 2 →
      b2.data j = b.data j := by
  simp only [writeRGB] at h
  split at h
  · cases h
    refine ⟨rfl, by assumption, fun j h1 h2 h3 => ?_⟩
    rw [setByte_ne _ _ _ _ h3, setByte_ne _ _ _ _ h2, setByte_ne _ _ _ _ h1]
  · cases h

/-- A successful `rasterPixel` step keeps the length, never touches a byte
at or beyond the buffer length, and never touches an alpha byte (index
congruent to 3 mod 4). -/
theorem rasterPixel_effect (b : Buffer) (p : Polygon) (t : Texture) (x y : ℤ)
    (b2 : Buffer) (h : rasterPixel b p t x y = some b2) :
    b2.len = b.len ∧ (∀ i, b.len ≤ i → b2.data i = b.data i) ∧
    (∀ i, i % 4 = 3 → b2.data i = b.data i) := by
  simp only [rasterPixel] at h
  split at h
  · cases h
    exact ⟨rfl, fun _ _ => rfl, fun _ _ => rfl⟩
  · split at h
    · cases h
    · obtain ⟨hlen, hin, hdata⟩ := writeRGB_effect _ _ _ _ _ h
      have hm := writeIdx_mod4 x y
      refine ⟨hlen, fun i hi => hdata i ?_ ?_ ?_, fun i hi => hdata i ?_ ?_ ?_⟩ <;> omega

/-! ## C10: clockwise polygons produce no pixels -/

/-- C10: a polygon whose signed area `edge_function(v0,v1,v2)` is strictly
negative (clockwise winding) is classified outside at every finite
coordinate, and `rasterise`'s scan for it leaves the buffer untouched —
only polygons with non-negative signed area can produce inside pixels. -/
theorem negative_area_no_pixels (p : Polygon) (x0 y0 x1 y1 x2 y2 : ℚ)
    (hv : p.vertices = (⟨num x0, num y0⟩, ⟨num x1, num y1⟩, ⟨num x2, num y2⟩))
    (hneg : (x2 - x0) * (y1 - y0) - (y2 - y0) * (x1 - x0) < 0) :
    (∀ cx cy : ℚ, p.test_inside ⟨num cx, num cy⟩ = none) ∧
    (∀ (b : Buffer) (t : Texture), rasterPoly b p t = some b) := by
  have hnone : ∀ cx cy : ℚ, p.test_inside ⟨num cx, num cy⟩ = none := by
    intro cx cy
    rw [test_inside_closed, hv]
    simp only [edge_num, flt_num]
    by_cases h1 : (cx - x0) * (y1 - y0) - (cy - y0) * (x1 - x0) < 0
    · simp [h1]
    · by_cases h2 : (cx - x1) * (y2 - y1) - (cy - y1) * (x2 - x1) < 0
      · simp [h1, h2]
      · by_cases h3 : (cx - x2) * (y0 - y2) - (cy - y2) * (x0 - x2) < 0
        · simp [h1, h2, h3]
        · exfalso
          have hsum : ((cx - x0) * (y1 - y0) - (cy - y0) * (x1 - x0)) +
              ((cx - x1) * (y2 - y1) - (cy - y1) * (x2 - x1)) +
              ((cx - x2) * (y0 - y2) - (cy - y2) * (x0 - x2)) =
              (x2 - x0) * (y1 - y0) - (y2 - y0) * (x1 - x0) := by ring
          push_neg at h1 h2 h3
          linarith
  refine ⟨hnone, fun b t => ?_⟩
  refine foldlM_id _ _ (fun yc _ b1 => ?_) b
  refine foldlM_id _ _ (fun xc _ b2 => ?_) b1
  simp only [rasterPixel]
  rw [show (⟨ofInt xc, ofInt yc⟩ : Coord) = ⟨num (xc : ℚ), num (yc : ℚ)⟩ from rfl]
  rw [hnone (xc : ℚ) (yc : ℚ)]

/-- Witness for C10: a concrete clockwise triangle is outside at the origin
and its scan leaves a concrete buffer unchanged. -/
theorem negative_area_no_pixels_witness :
    Polygon.test_inside
      ⟨(⟨num 0, num 0⟩, ⟨num 1, num 0⟩, ⟨num 0, num 1⟩), none, none⟩
      ⟨num 0, num 0⟩ = none ∧
    rasterPoly ⟨262144, fun _ => 7⟩
      ⟨(⟨num 0, num 0⟩, ⟨num 1, num 0⟩, ⟨num 0, num 1⟩), none, none⟩
      Texture.checkerboard = some ⟨262144, fun _ => 7⟩ := by
  have h := negative_area_no_pixels
    ⟨(⟨num 0, num 0⟩, ⟨num 1, num 0⟩, ⟨num 0, num 1⟩), none, none⟩
    0 0 1 0 0 1 rfl (by norm_num)
  exact ⟨h.1 0 0, h.2 ⟨262144, fun _ => 7⟩ Texture.checkerboard⟩

/-! ## Concrete fixtures -/

/-- A 256×256×4 output buffer whose every byte holds 7. -/
def bufA : Buffer := ⟨262144, fun _ => 7⟩

/-- A small triangle entirely inside the 256×256 grid. -/
def triA : Polygon :=
  ⟨(⟨num 1, num 1⟩, ⟨num 1, num 3⟩, ⟨num 3, num 3⟩),
   some (⟨10, 20, 30⟩, ⟨10, 20, 30⟩, ⟨10, 20, 30⟩), none⟩

/-- A triangle with negative pixel coordinates: its first inside candidate
`(-10,-10)` maps to a negative flat index. -/
def pNeg : Polygon :=
  ⟨(⟨num (-10), num (-10)⟩, ⟨num (-10), num (-5)⟩, ⟨num (-5), num (-5)⟩),
   none, none⟩

/-- A triangle right of the grid (x in 300..302, y in 0..2): its candidate
`(300, 0)` has flat index `1200`, which is inside the buffer but belongs
to grid pixel `(44, 1)`. -/
def pAlias : Polygon :=
  ⟨(⟨num 300, num 0⟩, ⟨num 300, num 2⟩, ⟨num 302, num 2⟩), none, none⟩

/-- A degenerate (collinear) triangle with uniform red vertex colours. -/
def pDegen : Polygon :=
  ⟨(⟨num 0, num 0⟩, ⟨num 1, num 0⟩, ⟨num 2, num 0⟩),
   some (⟨255, 0, 0⟩, ⟨255, 0, 0⟩, ⟨255, 0, 0⟩), none⟩

/-! ## C1: buffer-bounds behaviour of rasterise -/

/-- A successful per-polygon scan keeps the length, never writes at or
beyond the buffer length, and never touches an alpha byte. -/
theorem rasterPoly_pres (b : Buffer) (p : Polygon) (t : Texture) (b2 : Buffer)
    (h : rasterPoly b p t = some b2) :
    b2.len = b.len ∧ (∀ i, b.len ≤ i → b2.data i = b.data i) ∧
    (∀ i, i % 4 = 3 → b2.data i = b.data i) := by
  have htrans : ∀ b1 b2 b3 : Buffer,
      (b2.len = b1.len ∧ (∀ i, b1.len ≤ i → b2.data i = b1.data i) ∧
        (∀ i, i % 4 = 3 → b2.data i = b1.data i)) →
      (b3.len = b2.len ∧ (∀ i, b2.len ≤ i → b3.data i = b2.data i) ∧
        (∀ i, i % 4 = 3 → b3.data i = b2.data i)) →
      (b3.len = b1.len ∧ (∀ i, b1.len ≤ i → b3.data i = b1.data i) ∧
        (∀ i, i % 4 = 3 → b3.data i = b1.data i)) := by
    intro b1 b2 b3 h12 h23
    refine ⟨h23.1.trans h12.1, fun i hi => ?_, fun i hi => ?_⟩
    · rw [h23.2.1 i (h12.1 ▸ hi), h12.2.1 i hi]
    · rw [h23.2.2 i hi, h12.2.2 i hi]
  refine foldlM_rel _ (fun b0 => ⟨rfl, fun _ _ => rfl, fun _ _ => rfl⟩) htrans _ _
    (fun yc _ b0 b3 h0 => ?_) b b2 h
  refine foldlM_rel _ (fun b4 => ⟨rfl, fun _ _ => rfl, fun _ _ => rfl⟩) htrans _ _
    (fun xc _ b4 b5 h4 => ?_) b0 b3 h0
  exact rasterPixel_effect b4 p t xc yc b5 h4

/-- C1 (amended): `rasterise` performs no clipping of candidate pixels;
instead each write's flat index is bounds-checked by the indexing
operation.  A candidate whose flat byte index falls outside the buffer
aborts the call (the Rust panic, modelled by `none`) rather than writing;
in any completed call no byte at or beyond the buffer length is modified,
and the length is unchanged. -/
theorem rasterise_bounds_guarded (out : Buffer) (polys : List Polygon) (t : Texture)
    (out2 : Buffer) (h : rasterise out polys t = some out2) :
    out2.len = out.len ∧ ∀ i, out.len ≤ i → out2.data i = out.data i := by
  have htrans : ∀ b1 b2 b3 : Buffer,
      (b2.len = b1.len ∧ ∀ i, b1.len ≤ i → b2.data i = b1.data i) →
      (b3.len = b2.len ∧ ∀ i, b2.len ≤ i → b3.data i = b2.data i) →
      (b3.len = b1.len ∧ ∀ i, b1.len ≤ i → b3.data i = b1.data i) := by
    intro b1 b2 b3 h12 h23
    refine ⟨h23.1.trans h12.1, fun i hi => ?_⟩
    rw [h23.2 i (h12.1 ▸ hi), h12.2 i hi]
  refine foldlM_rel _ (fun b0 => ⟨rfl, fun _ _ => rfl⟩) htrans _ _
    (fun p _ b0 b3 h0 => ?_) out out2 h
  have hp := rasterPoly_pres b0 p t b3 h0
  exact ⟨hp.1, hp.2.1⟩

/-- Witness for C1: a fully in-grid triangle rasterises successfully and
the bytes beyond the buffer length are untouched. -/
theorem rasterise_bounds_guarded_witness :
    (rasterise bufA [triA] Texture.checkerboard).isSome = true ∧
    ((rasterise bufA [triA] Texture.checkerboard).getD bufA).len = bufA.len ∧
    ((rasterise bufA [triA] Texture.checkerboard).getD bufA).data 262150 =
      bufA.data 262150 := by
  refine ⟨by with_unfolding_all decide, ?_, ?_⟩ <;>
    cases h : rasterise bufA [triA] Texture.checkerboard with
    | none => rfl
    | some o =>
      first
      | exact (rasterise_bounds_guarded bufA [triA] Texture.checkerboard o h).1
      | exact (rasterise_bounds_guarded bufA [triA] Texture.checkerboard o h).2
          262150 (by norm_num [bufA])

/-- Counterexample for C1 as stated: a polygon extending to negative
coordinates drives `rasterise` into the out-of-bounds (panic) branch on a
256×256×4 buffer — the candidate pixels are not clipped. -/
theorem rasterise_oob_candidate_panics :
    (rasterise bufA [pNeg] Texture.checkerboard).isNone = true ∧
    bufA.len = 262144 := by
  with_unfolding_all decide

/-! ## C7: frame effect of rasterise -/

/-- The polygon's scan range (floor of the box minimum to ceiling of the
box maximum, cast to `i32`) lies inside the 256×256 target grid. -/
def inGrid (p : Polygon) : Prop :=
  0 ≤ toI32 (ffloor p.bounding_box.min.x) ∧ toI32 (fceil p.bounding_box.max.x) ≤ 255 ∧
  0 ≤ toI32 (ffloor p.bounding_box.min.y) ∧ toI32 (fceil p.bounding_box.max.y) ≤ 255

instance (p : Polygon) : Decidable (inGrid p) := by
  unfold inGrid
  infer_instance

/-- A pixel step at an in-grid candidate leaves the three RGB bytes of any
grid pixel that the polygon classifies as outside untouched. -/
theorem rasterPixel_protected (b : Buffer) (p : Polygon) (t : Texture) (x y : ℤ)
    (hx0 : 0 ≤ x) (hx1 : x ≤ 255) (hy0 : 0 ≤ y) (hy1 : y ≤ 255)
    (px py : ℕ) (hpx : px < 256) (hpy : py < 256)
    (hnone : p.test_inside ⟨num (px : ℚ), num (py : ℚ)⟩ = none)
    (b2 : Buffer) (h : rasterPixel b p t x y = some b2) :
    ∀ c, c < 3 → b2.data ((py * 256 + px) * 4 + c) = b.data ((py * 256 + px) * 4 + c) := by
  intro c hc
  simp only [rasterPixel] at h
  split at h
  · cases h; rfl
  · rename_i interp hti
    split at h
    · cases h
    · by_cases heq : px = x.toNat ∧ py = y.toNat
      · exfalso
        have hxq : ((px : ℕ) : ℚ) = ((x : ℤ) : ℚ) := by
          rw [heq.1]
          exact_mod_cast congrArg (fun z : ℤ => (z : ℚ)) (Int.toNat_of_nonneg hx0)
        have hyq : ((py : ℕ) : ℚ) = ((y : ℤ) : ℚ) := by
          rw [heq.2]
          exact_mod_cast congrArg (fun z : ℤ => (z : ℚ)) (Int.toNat_of_nonneg hy0)
        have hcoord : (⟨num (px : ℚ), num (py : ℚ)⟩ : Coord) = ⟨ofInt x, ofInt y⟩ := by
          simp only [ofInt, hxq, hyq]
        rw [hcoord, hti] at hnone
        cases hnone
      · have hidx := writeIdx_inGrid x y hx0 hx1 hy0 hy1
        have hxt : x.toNat ≤ 255 := by omega
        have hyt : y.toNat ≤ 255 := by omega
        refine (writeRGB_effect _ _ _ _ _ h).2.2 _ ?_ ?_ ?_ <;> rw [hidx] <;> omega

/-- C7 (amended): a completed `rasterise` call preserves the buffer length
and every alpha byte (flat index ≡ 3 mod 4); for in-grid candidates the
write lands at the flat offset `(y*256 + x)*4`; and when every polygon's
scan range lies inside the 256×256 grid, the RGB bytes of every grid pixel
classified inside no polygon keep their pre-call values. -/
theorem rasterise_frame_effect (out : Buffer) (polys : List Polygon) (t : Texture)
    (out2 : Buffer) (h : rasterise out polys t = some out2) :
    out2.len = out.len ∧
    (∀ i, i % 4 = 3 → out2.data i = out.data i) ∧
    (∀ x y : ℤ, 0 ≤ x → x ≤ 255 → 0 ≤ y → y ≤ 255 →
      writeIdx x y = (y.toNat * 256 + x.toNat) * 4) ∧
    ((∀ p ∈ polys, inGrid p) →
      ∀ px py : ℕ, px < 256 → py < 256 →
        (∀ p ∈ polys, p.test_inside ⟨num (px : ℚ), num (py : ℚ)⟩ = none) →
        ∀ c, c < 3 →
          out2.data ((py * 256 + px) * 4 + c) = out.data ((py * 256 + px) * 4 + c)) := by
  have halpha : out2.len = out.len ∧
      (∀ i, out.len ≤ i → out2.data i = out.data i) ∧
      (∀ i, i % 4 = 3 → out2.data i = out.data i) := by
    have htrans : ∀ b1 b2 b3 : Buffer,
        (b2.len = b1.len ∧ (∀ i, b1.len ≤ i → b2.data i = b1.data i) ∧
          (∀ i, i % 4 = 3 → b2.data i = b1.data i)) →
        (b3.len = b2.len ∧ (∀ i, b2.len ≤ i → b3.data i = b2.data i) ∧
          (∀ i, i % 4 = 3 → b3.data i = b2.data i)) →
        (b3.len = b1.len ∧ (∀ i, b1.len ≤ i → b3.data i = b1.data i) ∧
          (∀ i, i % 4 = 3 → b3.data i = b1.data i)) := by
      intro b1 b2 b3 h12 h23
      refine ⟨h23.1.trans h12.1, fun i hi => ?_, fun i hi => ?_⟩
      · rw [h23.2.1 i (h12.1 ▸ hi), h12.2.1 i hi]
      · rw [h23.2.2 i hi, h12.2.2 i hi]
    exact foldlM_rel _ (fun b0 => ⟨rfl, fun _ _ => rfl, fun _ _ => rfl⟩) htrans _ _
      (fun p _ b0 b3 h0 => rasterPoly_pres b0 p t b3 h0) out out2 h
  refine ⟨halpha.1, halpha.2.2, fun x y hx0 hx1 hy0 hy1 =>
    writeIdx_inGrid x y hx0 hx1 hy0 hy1, fun hGrid px py hpx hpy hnone => ?_⟩
  have htrans : ∀ b1 b2 b3 : Buffer,
      (∀ c, c < 3 → b2.data ((py * 256 + px) * 4 + c) = b1.data ((py * 256 + px) * 4 + c)) →
      (∀ c, c < 3 → b3.data ((py * 256 + px) * 4 + c) = b2.data ((py * 256 + px) * 4 + c)) →
      (∀ c, c < 3 → b3.data ((py * 256 + px) * 4 + c) = b1.data ((py * 256 + px) * 4 + c)) := by
    intro b1 b2 b3 h12 h23 c hc
    rw [h23 c hc, h12 c hc]
  refine foldlM_rel _ (fun b0 _ _ => rfl) htrans _ _
    (fun p hp b0 b3 h0 => ?_) out out2 h
  refine foldlM_rel _ (fun b4 _ _ => rfl) htrans _ _
    (fun yc hyc b4 b5 h4 => ?_) b0 b3 h0
  refine foldlM_rel _ (fun b6 _ _ => rfl) htrans _ _
    (fun xc hxc b6 b7 h6 => ?_) b4 b5 h4
  have hxb := mem_intRange hxc
  have hyb := mem_intRange hyc
  obtain ⟨hg1, hg2, hg3, hg4⟩ := hGrid p hp
  exact rasterPixel_protected b6 p t xc yc (le_trans hg1 hxb.1) (le_trans hxb.2 hg2)
    (le_trans hg3 hyb.1) (le_trans hyb.2 hg4) px py hpx hpy (hnone p hp) b7 h6

/-- Witness for C7: rasterising an in-grid triangle preserves an alpha byte
and the RGB bytes of an outside pixel. -/
theorem rasterise_frame_effect_witness :
    (rasterise bufA [triA] Texture.checkerboard).isSome = true ∧
    ((rasterise bufA [triA] Texture.checkerboard).getD bufA).data 3 = bufA.data 3 ∧
    ((rasterise bufA [triA] Texture.checkerboard).getD bufA).data 0 = bufA.data 0 := by
  refine ⟨by with_unfolding_all decide, ?_, ?_⟩ <;>
    cases h : rasterise bufA [triA] Texture.checkerboard with
    | none => rfl
    | some o =>
      first
      | exact (rasterise_frame_effect bufA [triA] Texture.checkerboard o h).2.1
          3 (by norm_num)
      | exact (rasterise_frame_effect bufA [triA] Texture.checkerboard o h).2.2.2
          (by intro p hp; rw [List.mem_singleton] at hp; subst hp
              with_unfolding_all decide)
          0 0 (by norm_num) (by norm_num)
          (by intro p hp; rw [List.mem_singleton] at hp; subst hp
              with_unfolding_all decide)
          0 (by norm_num)

/-- Counterexample for C7 as stated: the out-of-grid candidate `(300, 0)`
of `pAlias` aliases to flat offset 1200 — grid pixel `(44, 1)` — so a
pixel classified inside no polygon has its R byte overwritten. -/
theorem rasterise_outside_grid_aliasing :
    Polygon.test_inside pAlias ⟨num 44, num 1⟩ = none ∧
    bufA.data 1200 = 7 ∧
    (rasterise bufA [pAlias] Texture.checkerboard).isSome = true ∧
    ((rasterise bufA [pAlias] Texture.checkerboard).getD bufA).data 1200 = 0 := by
  with_unfolding_all decide

/-! ## C2: degenerate polygons and NaN propagation -/

/-- C2 exhibit: the code performs no degenerate-area detection.  For the
collinear triangle `pDegen` (area exactly 0), the lattice point `(0,0)` on
its supporting line is classified inside with weights `0/0 = NaN`; the
NaN weights propagate through the colour interpolation, the `as u8` cast
maps NaN to 0, and `rasterise` writes the NaN-derived bytes `(0,0,0)`
over the buffer — despite the uniform red vertex colours — instead of
skipping the polygon or treating its pixels as outside. -/
theorem degenerate_nan_writes :
    edge_function pDegen.vertices.1 pDegen.vertices.2.1 pDegen.vertices.2.2 = num 0 ∧
    Polygon.test_inside pDegen ⟨num 0, num 0⟩ = some (nan, nan, nan) ∧
    (rasterise bufA [pDegen] Texture.checkerboard).isSome = true ∧
    ((rasterise bufA [pDegen] Texture.checkerboard).getD bufA).data 0 = 0 ∧
    ((rasterise bufA [pDegen] Texture.checkerboard).getD bufA).data 1 = 0 ∧
    ((rasterise bufA [pDegen] Texture.checkerboard).getD bufA).data 2 = 0 ∧
    bufA.data 0 = 7 := by
  with_unfolding_all decide

/-! ## C3: texture sampling and periodicity -/

/-- `toUsize` of a non-negative finite value below the saturation bound is
the floor. -/
theorem toUsize_num_nonneg (q : ℚ) (h0 : 0 ≤ q) (hb : ⌊q⌋ ≤ 2 ^ 64 - 1) :
    toUsize (num q) = ⌊q⌋.toNat := by
  have hf : 0 ≤ ⌊q⌋ := Int.floor_nonneg.mpr h0
  simp only [toUsize, qtrunc, if_pos h0]
  omega

/-- C3 (amended): sampling truncates the coordinate toward zero — for
non-negative coordinates this is the floor — and wraps by modulo, indexing
the flat grid at `tex_y*width + tex_x`; periodicity
`sample(x, y) = sample(x + k*width, y + m*height)` holds for non-negative
coordinates and natural shifts `k`, `m` (below the `usize` saturation
bound).  Negative coordinates are saturated to 0 by the `as usize` cast,
not floor-wrapped, so the claimed periodicity for all integer shifts
fails. -/
theorem sample_wrap_nonneg (t : Texture) (x y : ℚ) (k m : ℕ)
    (hx : 0 ≤ x) (hy : 0 ≤ y)
    (hxb : ⌊x⌋ + (k * t.x : ℕ) ≤ 2 ^ 64 - 1)
    (hyb : ⌊y⌋ + (m * t.y : ℕ) ≤ 2 ^ 64 - 1) :
    sample t ⟨num (x + (k * t.x : ℕ)), num (y + (m * t.y : ℕ))⟩ =
      sample t ⟨num x, num y⟩ ∧
    (0 < t.x → 0 < t.y →
      sample t ⟨num x, num y⟩ =
        t.colours.get? ((⌊y⌋.toNat % t.y) * t.x + ⌊x⌋.toNat % t.x)) := by
  have hfx : 0 ≤ ⌊x⌋ := Int.floor_nonneg.mpr hx
  have hfy : 0 ≤ ⌊y⌋ := Int.floor_nonneg.mpr hy
  have hx2 : (0 : ℚ) ≤ x + (k * t.x : ℕ) := by positivity
  have hy2 : (0 : ℚ) ≤ y + (m * t.y : ℕ) := by positivity
  have hfx2 : ⌊x + ((k * t.x : ℕ) : ℚ)⌋ = ⌊x⌋ + (k * t.x : ℕ) := Int.floor_add_nat x _
  have hfy2 : ⌊y + ((m * t.y : ℕ) : ℚ)⌋ = ⌊y⌋ + (m * t.y : ℕ) := Int.floor_add_nat y _
  have hux : toUsize (num (x + (k * t.x : ℕ))) = ⌊x⌋.toNat + k * t.x := by
    rw [toUsize_num_nonneg _ hx2 (by omega), hfx2]
    omega
  have huy : toUsize (num (y + (m * t.y : ℕ))) = ⌊y⌋.toNat + m * t.y := by
    rw [toUsize_num_nonneg _ hy2 (by omega), hfy2]
    omega
  have hux1 : toUsize (num x) = ⌊x⌋.toNat := toUsize_num_nonneg x hx (by omega)
  have huy1 : toUsize (num y) = ⌊y⌋.toNat := toUsize_num_nonneg y hy (by omega)
  constructor
  · by_cases htx : t.x = 0
    · simp [sample, htx]
    · by_cases hty : t.y = 0
      · simp [sample, htx, hty]
      · simp only [sample, htx, hty, if_neg, hux, huy, hux1, huy1,
          Nat.add_mul_mod_self_right]
  · intro htx hty
    simp only [sample, Nat.pos_iff_ne_zero.mp htx, Nat.pos_iff_ne_zero.mp hty,
      if_neg, hux1, huy1]
    simp

/-- Witness for C3: sampling the checkerboard at `(4+32, 0)` equals
sampling at `(4, 0)`, and the index formula holds there. -/
theorem sample_wrap_nonneg_witness :
    sample Texture.checkerboard ⟨num (4 + ((1 * 32 : ℕ) : ℚ)), num (0 + ((0 * 32 : ℕ) : ℚ))⟩ =
      sample Texture.checkerboard ⟨num 4, num 0⟩ ∧
    sample Texture.checkerboard ⟨num 4, num 0⟩ =
      Texture.checkerboard.colours.get?
        ((⌊(0 : ℚ)⌋.toNat % 32) * 32 + ⌊(4 : ℚ)⌋.toNat % 32) := by
  have h := sample_wrap_nonneg Texture.checkerboard 4 0 1 0
    (by norm_num) (by norm_num)
    (by norm_num [Texture.checkerboard])
    (by norm_num [Texture.checkerboard])
  exact ⟨h.1, h.2 (by norm_num [Texture.checkerboard]) (by norm_num [Texture.checkerboard])⟩

/-- Counterexample for C3 as stated: periodicity fails for the negative
shift `k = -1` — `sample(4, 0)` is white but `sample(4 - 32, 0)` is black,
because the `as usize` cast saturates `-28` to 0 instead of wrapping. -/
theorem sample_negative_shift_not_periodic :
    sample Texture.checkerboard ⟨num 4, num 0⟩ = some Colour.white ∧
    sample Texture.checkerboard ⟨num (4 - 1 * 32), num 0⟩ = some Colour.black := by
  with_unfolding_all decide

/-! ## C9: the checkerboard texture -/

/-- Flat lookup in the checkerboard list. -/
theorem checkerboard_get (qx qy : ℕ) (hx : qx < 32) (hy : qy < 32) :
    Texture.checkerboard.colours.get? (qy * 32 + qx) =
      some (if (qx / 4 + qy / 4) % 2 = 0 then Colour.black else Colour.white) := by
  have hn : qy * 32 + qx < 1024 := by omega
  have h1 : (qy * 32 + qx) % 32 = qx := by omega
  have h2 : (qy * 32 + qx) / 32 = qy := by omega
  simp only [Texture.checkerboard, List.get?_map, List.get?_range hn, Option.map_some',
    h1, h2]

/-- C9: `Texture::checkerboard` is 32×32 with 1024 colours in row-major
order; the texel at `(x, y)` is black when its 4×4 block coordinates
`(x/4, y/4)` have even sum and white otherwise; sampling at `(0,0)` gives
black and at `(4,0)` gives white. -/
theorem checkerboard_spec :
    Texture.checkerboard.x = 32 ∧
    Texture.checkerboard.y = 32 ∧
    Texture.checkerboard.colours.length = 1024 ∧
    (∀ qx qy : Fin 32,
      Texture.checkerboard.colours.get? (qy.val * 32 + qx.val) =
        some (if (qx.val / 4 + qy.val / 4) % 2 = 0 then Colour.black else Colour.white)) ∧
    sample Texture.checkerboard ⟨num 0, num 0⟩ = some Colour.black ∧
    sample Texture.checkerboard ⟨num 4, num 0⟩ = some Colour.white := by
  refine ⟨rfl, rfl, by simp [Texture.checkerboard],
    fun qx qy => checkerboard_get qx.val qy.val qx.isLt qy.isLt,
    by with_unfolding_all decide, by with_unfolding_all decide⟩
